import Mathlib

/-!
Shallow embedding of the client-side state management of the `nf-scrape`
single-page application (source: `src/App.tsx`).

Modelling conventions:
* JavaScript arrays become `List`; `Array.prototype.slice(0, n)` is
  `List.take n`, `slice(-n)` is `jsSliceLast n`, `Array.prototype.filter`
  is `List.filter`, `Array.prototype.join(",")` is `String.intercalate ","`.
* `Date.now()` / `performance.now()` readings are passed in as explicit
  `Nat` arguments (`now`, `elapsed`), since the model has no clock.
* Floating-point arithmetic on latency samples is idealised as exact
  arithmetic; `Math.round(sum / length)` on non-negative integers is
  `jsRoundDiv sum length = (2 * sum + length) / (2 * length)` in `Nat`
  division, which equals the rational `sum / length` rounded half-up
  (proved in `jsRoundDiv_eq_floor`).
* Thrown JavaScript exceptions become `Except String` values; the `catch`
  blocks of `handleSearch` / `handleBatchSearch` surface the carried
  message, exactly as `err.message` is surfaced in the source.
* `localStorage` and `URLSearchParams` are modelled as association lists
  `List (String × String)`; whether a storage write succeeds (quota,
  availability) is an explicit `Bool` input of the model.
-/

-- ==================== Data model (src/App.tsx, Types section) ====================

/-- Entry of the persisted search history (`SearchHistoryItem`). -/
structure SearchHistoryItem where
  id : String
  title : String
  timestamp : Nat
deriving Repr, DecidableEq

/-- Persisted analytics snapshot (`AnalyticsData`). -/
structure AnalyticsData where
  totalSearches : Nat
  avgResponseTime : Nat
  searchTimes : List Nat
  recentSearches : List (String × Nat)
deriving Repr, DecidableEq

/-- The fields of a `NetflixEntity` that the modelled operations touch. -/
structure NetflixEntity where
  videoId : Nat
  title : String
  runtimeSec : Nat
deriving Repr, DecidableEq

/-- Parsed JSON response body (`NetflixResponse`): optional
`data.unifiedEntities` list and optional `error` string. -/
structure NetflixResponseBody where
  dataEntities : Option (List NetflixEntity)
  error : Option String
deriving Repr, DecidableEq

/-- Constant `MAX_HISTORY` (src/App.tsx line 125). -/
def MAX_HISTORY : Nat := 20

-- ==================== JS helpers ====================

/-- Model of `Array.prototype.slice(-n)`: the last `n` elements (all of them when
the list is shorter). -/
def jsSliceLast (n : Nat) (l : List α) : List α :=
  l.drop (l.length - n)

/-- Model of `Math.round (s / n)` for natural `s` and positive natural `n`,
computed in integer arithmetic. -/
def jsRoundDiv (s n : Nat) : Nat :=
  (2 * s + n) / (2 * n)

/-- JavaScript `x || d` for an optional string `x`: the empty string is
falsy, so it also falls back to the default. -/
def jsOrElse (x : Option String) (d : String) : String :=
  match x with
  | some s => if s = "" then d else s
  | none => d

-- ==================== Storage Adapter (getFromStorage / setToStorage) ====================

/-- Model of `getFromStorage(key, defaultValue)` (src/App.tsx lines 162-169).
The `localStorage.getItem` call is modelled by its outcome
`got : Except Unit (Option String)` (`.error` = the call threw,
`.ok none` = key absent, i.e. `null`), and `JSON.parse` by
`parse : String → Except Unit α` (`.error` = parse threw).  The JS
ternary `item ? JSON.parse(item) : defaultValue` treats the empty string
as falsy.  Every branch returns a value: nothing escapes to the caller. -/
def getFromStorage (got : Except Unit (Option String)) (parse : String → Except Unit α)
    (defaultValue : α) : α :=
  match got with
  | .error _ => defaultValue
  | .ok none => defaultValue
  | .ok (some item) =>
    if item = "" then defaultValue
    else
      match parse item with
      | .error _ => defaultValue
      | .ok v => v

/-- Model of `setToStorage(key, value)` (src/App.tsx lines 171-177).  The store is
an association list; `ok` tells whether `localStorage.setItem` succeeds
(quota, availability).  A failed write is swallowed and leaves the store
untouched. -/
def setToStorage (store : List (String × String)) (key value : String) (ok : Bool) :
    List (String × String) :=
  if ok then (key, value) :: store.filter (fun p => p.1 ≠ key) else store

-- ==================== Search History Store (useSearchHistory) ====================

/-- Model of the `addToHistory(id, title)` state update (src/App.tsx lines 297-305):
drop entries with the same id, prepend the fresh entry stamped `now`,
keep the first `MAX_HISTORY`. -/
def addToHistory (id title : String) (now : Nat) (prev : List SearchHistoryItem) :
    List SearchHistoryItem :=
  let filtered := prev.filter (fun item => item.id ≠ id)
  let newItem : SearchHistoryItem := ⟨id, title, now⟩
  (newItem :: filtered).take MAX_HISTORY

-- ==================== Analytics Counter (useAnalytics) ====================

/-- Initial analytics value (the `useState` default, src/App.tsx lines 316-323). -/
def initialAnalytics : AnalyticsData :=
  { totalSearches := 0, avgResponseTime := 0, searchTimes := [], recentSearches := [] }

/-- Model of the `trackSearch(id, responseTime)` state update (src/App.tsx lines 325-341):
append the sample, keep the last 50, recompute the rounded average over the
retained window, prepend to the recent list capped at 10, bump the total. -/
def trackSearch (id : String) (responseTime : Nat) (prev : AnalyticsData) : AnalyticsData :=
  let searchTimes := jsSliceLast 50 (prev.searchTimes ++ [responseTime])
  { totalSearches := prev.totalSearches + 1
    avgResponseTime := jsRoundDiv searchTimes.sum searchTimes.length
    searchTimes := searchTimes
    recentSearches := ((id, responseTime) :: prev.recentSearches).take 10 }

/-- Fold a sequence of `trackSearch` calls (identifier, sample) over an
analytics state. -/
def trackMany (samples : List (String × Nat)) (a : AnalyticsData) : AnalyticsData :=
  samples.foldl (fun acc p => trackSearch p.1 p.2 acc) a

-- ==================== Substring matching (JS String.prototype.includes) ====================

/-- Model of JS `String.prototype.startsWith` on character lists. -/
def startsWithChars : List Char → List Char → Bool
  | [], _ => true
  | _ :: _, [] => false
  | p :: ps, h :: hs => p == h && startsWithChars ps hs

/-- Substring search on character lists. -/
def includesChars (hay pat : List Char) : Bool :=
  match hay with
  | [] => pat.isEmpty
  | _ :: t => startsWithChars pat hay || includesChars t pat

/-- Model of JS `s.includes(pat)`. -/
def jsIncludes (s pat : String) : Bool :=
  includesChars s.toList pat.toList

/-- Model of `filteredHistory` of `SearchForm` (src/App.tsx lines 446-448): keep the
entries whose id contains the query, or whose lower-cased title contains
the lower-cased query. -/
def filteredHistory (history : List SearchHistoryItem) (videoId : String) :
    List SearchHistoryItem :=
  history.filter (fun item =>
    jsIncludes item.id videoId || jsIncludes item.title.toLower videoId.toLower)

-- ==================== Runtime formatting / Markdown export ====================

/-- Model of `formatRuntime(seconds)` (src/App.tsx lines 141-148). -/
def formatRuntime (seconds : Nat) : String :=
  let hours := seconds / 3600
  let minutes := (seconds % 3600) / 60
  if hours > 0 then
    toString hours ++ "h " ++ toString minutes ++ "m"
  else
    toString minutes ++ "m"

/-- The runtime line of `exportAsMarkdown` (src/App.tsx line 204). -/
def exportRuntimeLine (entity : NetflixEntity) : String :=
  "- **Runtime:** " ++ formatRuntime entity.runtimeSec

-- ==================== URL State Sync (useURLState) ====================

/-- Model of `URLSearchParams.set(k, v)`: replace the first binding of `k` (dropping
any later duplicates), or append a fresh binding. -/
def urlSetParam : List (String × String) → String → String → List (String × String)
  | [], k, v => [(k, v)]
  | p :: rest, k, v =>
    if p.1 = k then (k, v) :: rest.filter (fun q => q.1 ≠ k)
    else p :: urlSetParam rest k v

/-- Model of `URLSearchParams.delete(k)`: remove every binding of `k`. -/
def urlDeleteParam (ps : List (String × String)) (k : String) : List (String × String) :=
  ps.filter (fun q => q.1 ≠ k)

/-- Model of `setVideoIdToURL(videoId)` (src/App.tsx lines 261-269): set or delete
the `v` query parameter (a non-empty `videoId` is truthy), then
`window.history.pushState` the resulting URL, growing the session history
stack (current entry at the head). -/
def setVideoIdToURL (videoId : String) (url : List (String × String))
    (histStack : List (List (String × String))) :
    List (String × String) × List (List (String × String)) :=
  let url' := if videoId ≠ "" then urlSetParam url "v" videoId else urlDeleteParam url "v"
  (url', url' :: histStack)

-- ==================== Fetch Orchestrator ====================

instance {ε α : Type} [DecidableEq ε] [DecidableEq α] : DecidableEq (Except ε α) := fun a b =>
  match a, b with
  | .error e, .error f =>
    if h : e = f then isTrue (by rw [h]) else isFalse (fun hh => h (by cases hh; rfl))
  | .error _, .ok _ => isFalse (fun hh => by cases hh)
  | .ok _, .error _ => isFalse (fun hh => by cases hh)
  | .ok x, .ok y =>
    if h : x = y then isTrue (by rw [h]) else isFalse (fun hh => h (by cases hh; rfl))

/-- A completed HTTP response as `handleSearch` observes it: the `ok`
status flag, the rate-limit header pair when both
`X-RateLimit-Remaining` and `X-RateLimit-Limit` are present (already
parsed), and the result of `response.json()` (`.error` = the body was
unparseable and `json()` threw that message). -/
structure HttpResponse where
  ok : Bool
  rateHeaders : Option (Nat × Nat)
  body : Except String NetflixResponseBody
deriving Repr, DecidableEq

/-- Outcome of one `fetch` call: rejection (network error, message
carried) or a response. -/
inductive Fetched where
  | netError (msg : String)
  | resp (r : HttpResponse)
deriving Repr, DecidableEq

/-- The mutable client state the search paths touch. -/
structure AppState where
  history : List SearchHistoryItem
  analytics : AnalyticsData
  rateLimit : Nat × Nat
deriving Repr, DecidableEq

/-- Result of a single-identifier search: updated state, the error
message set by the `catch` block (if any), and the displayed entity. -/
structure SearchOutcome where
  state : AppState
  errorMsg : Option String
  found : Option NetflixEntity
deriving Repr, DecidableEq

/-- Model of `handleSearch(videoId)` (src/App.tsx lines 1050-1094), with the
network modelled by `server : String → Fetched`, the measured elapsed
time by `elapsed` and `Date.now()` by `now`.  Mirrors the source order:
rate-limit headers are applied before the body is parsed, so they stick
even when a later step throws; history and analytics are updated only on
success.  (The URL push and toasts are modelled separately.) -/
def handleSearch (server : String → Fetched) (videoId : String) (elapsed now : Nat)
    (st : AppState) : SearchOutcome :=
  match server videoId with
  | .netError msg => { state := st, errorMsg := some msg, found := none }
  | .resp r =>
    let st1 := { st with rateLimit := r.rateHeaders.getD st.rateLimit }
    match r.body with
    | .error msg => { state := st1, errorMsg := some msg, found := none }
    | .ok res =>
      if !r.ok then
        { state := st1, errorMsg := some (jsOrElse res.error "Failed to fetch metadata")
          found := none }
      else
        match res.dataEntities with
        | some (entity :: _) =>
          { state := { st1 with
              history := addToHistory videoId entity.title now st1.history
              analytics := trackSearch videoId elapsed st1.analytics }
            errorMsg := none, found := some entity }
        | _ =>
          { state := st1, errorMsg := some "No content found for this Video ID"
            found := none }

/-- The sequential loop of `handleBatchSearch` (src/App.tsx lines
1106-1113).  Returns the identifiers actually requested (in order) and
either the collected entities or the message of the exception that
aborted the loop (a rejected `fetch` or a throwing `response.json()`).
A parsed body contributes its first entity when present; the HTTP status
is never consulted and rate-limit headers are never read. -/
def batchLoop (server : String → Fetched) :
    List String → List NetflixEntity → List String × Except String (List NetflixEntity)
  | [], acc => ([], .ok acc)
  | id :: rest, acc =>
    match server id with
    | .netError msg => ([id], .error msg)
    | .resp r =>
      match r.body with
      | .error msg => ([id], .error msg)
      | .ok res =>
        let acc' := match res.dataEntities with
          | some (entity :: _) => acc ++ [entity]
          | _ => acc
        let out := batchLoop server rest acc'
        (id :: out.1, out.2)

/-- Result of a batch search: updated state, `catch`-block error message
(if any), the comparison set, and the trace of requested identifiers. -/
structure BatchOutcome where
  state : AppState
  errorMsg : Option String
  comparison : List NetflixEntity
  requested : List String
deriving Repr, DecidableEq

/-- Model of `handleBatchSearch(ids)` (src/App.tsx lines 1096-1131): truncate to 4
identifiers, run the sequential loop, fail with the aggregate message
when nothing was collected, otherwise track one analytics entry under
the comma-joined original identifier list.  `rateLimit` and `history`
are never touched on this path. -/
def handleBatchSearch (server : String → Fetched) (ids : List String) (elapsed : Nat)
    (st : AppState) : BatchOutcome :=
  let out := batchLoop server (ids.take 4) []
  match out.2 with
  | .error msg => { state := st, errorMsg := some msg, comparison := [], requested := out.1 }
  | .ok entities =>
    if entities.isEmpty then
      { state := st, errorMsg := some "No content found for any of the provided IDs"
        comparison := [], requested := out.1 }
    else
      { state := { st with analytics := trackSearch (String.intercalate "," ids) elapsed st.analytics }
        errorMsg := none, comparison := entities, requested := out.1 }

-- ==================== Helper lemmas ====================

theorem jsSliceLast_eq_reverse_take (n : Nat) (l : List α) :
    jsSliceLast n l = (l.reverse.take n).reverse := by
  have h := List.reverse_take (l := l.reverse) (n := n)
  simp only [List.reverse_reverse, List.length_reverse] at h
  exact h.symm

theorem jsSliceLast_length_le (n : Nat) (l : List α) : (jsSliceLast n l).length ≤ n := by
  simp only [jsSliceLast, List.length_drop]
  omega

theorem jsSliceLast_of_length_le (n : Nat) (l : List α) (h : l.length ≤ n) :
    jsSliceLast n l = l := by
  simp [jsSliceLast, Nat.sub_eq_zero_of_le h]

/-- Retaining the last `n`, appending, and retaining the last `n` again is
the same as appending and retaining once. -/
theorem jsSliceLast_append_left (n : Nat) (l r : List α) :
    jsSliceLast n (jsSliceLast n l ++ r) = jsSliceLast n (l ++ r) := by
  rw [jsSliceLast_eq_reverse_take n (jsSliceLast n l ++ r),
    jsSliceLast_eq_reverse_take n (l ++ r), jsSliceLast_eq_reverse_take n l]
  rw [List.reverse_append, List.reverse_reverse, List.reverse_append]
  congr 1
  rw [List.take_append_eq_append_take, List.take_append_eq_append_take]
  congr 1
  rw [List.take_take]
  congr 1
  simp [List.length_reverse]

theorem trackMany_cons (p : String × Nat) (rest : List (String × Nat)) (a : AnalyticsData) :
    trackMany (p :: rest) a = trackMany rest (trackSearch p.1 p.2 a) := rfl

theorem trackMany_totalSearches (samples : List (String × Nat)) (a : AnalyticsData) :
    (trackMany samples a).totalSearches = a.totalSearches + samples.length := by
  induction samples generalizing a with
  | nil => simp [trackMany]
  | cons p rest ih =>
    rw [trackMany_cons, ih]
    simp [trackSearch]
    omega

theorem trackSearch_searchTimes (id : String) (t : Nat) (a : AnalyticsData) :
    (trackSearch id t a).searchTimes = jsSliceLast 50 (a.searchTimes ++ [t]) := rfl

theorem trackMany_searchTimes (samples : List (String × Nat)) (a : AnalyticsData)
    (h : a.searchTimes.length ≤ 50) :
    (trackMany samples a).searchTimes =
      jsSliceLast 50 (a.searchTimes ++ samples.map Prod.snd) := by
  induction samples generalizing a with
  | nil => simpa [trackMany] using (jsSliceLast_of_length_le 50 a.searchTimes h).symm
  | cons p rest ih =>
    rw [trackMany_cons,
      ih (trackSearch p.1 p.2 a)
        (by rw [trackSearch_searchTimes]; exact jsSliceLast_length_le _ _),
      trackSearch_searchTimes, jsSliceLast_append_left]
    simp

theorem trackMany_avgResponseTime (samples : List (String × Nat)) (a : AnalyticsData)
    (h : samples ≠ []) :
    (trackMany samples a).avgResponseTime =
      jsRoundDiv (trackMany samples a).searchTimes.sum
        (trackMany samples a).searchTimes.length := by
  induction samples generalizing a with
  | nil => exact absurd rfl h
  | cons p rest ih =>
    rw [trackMany_cons]
    cases rest with
    | nil => rfl
    | cons q more =>
      apply ih
      simp

theorem addToHistory_unfold (prev : List SearchHistoryItem) (id title : String) (now : Nat) :
    addToHistory id title now prev
      = ((⟨id, title, now⟩ : SearchHistoryItem)
          :: prev.filter (fun item => item.id ≠ id)).take MAX_HISTORY := rfl

/-- Rounding bridge: `jsRoundDiv s n` is exactly the rational `s / n` rounded half-up
(the behaviour of JS `Math.round` on a non-negative quotient). -/
theorem jsRoundDiv_eq_floor (s n : Nat) (h : 0 < n) :
    (jsRoundDiv s n : ℤ) = ⌊(s : ℚ) / (n : ℚ) + 1 / 2⌋ := by
  have hn : (n : ℚ) ≠ 0 := Nat.cast_ne_zero.mpr (Nat.pos_iff_ne_zero.mp h)
  have hq : (s : ℚ) / (n : ℚ) + 1 / 2 = ((2 * s + n : ℕ) : ℚ) / ((2 * n : ℕ) : ℚ) := by
    push_cast
    field_simp
    ring
  rw [hq, Rat.floor_natCast_div_natCast]
  simp [jsRoundDiv]

-- ==================== Claim theorems ====================

/-- C1: recording a search removes any existing entry with the same
identifier, prepends a fresh entry carrying the current timestamp, and
truncates to the 20 most recent: the new entry is at the front, exactly
one entry with that identifier remains, the list stays within
`MAX_HISTORY`, every retained old entry has a different identifier, and
on a full history of 20 distinct other identifiers the oldest (last)
entry is evicted. -/
theorem history_record_spec (prev : List SearchHistoryItem) (id title : String) (now : Nat) :
    (addToHistory id title now prev).head? = some ⟨id, title, now⟩
    ∧ (addToHistory id title now prev).countP (fun i => i.id == id) = 1
    ∧ (addToHistory id title now prev).length ≤ MAX_HISTORY
    ∧ (∀ x ∈ addToHistory id title now prev,
        x = ⟨id, title, now⟩ ∨ (x ∈ prev ∧ x.id ≠ id))
    ∧ (prev.length = MAX_HISTORY → (∀ x ∈ prev, x.id ≠ id) →
        addToHistory id title now prev
          = ⟨id, title, now⟩ :: prev.take (MAX_HISTORY - 1)) := by
  have htake : ((⟨id, title, now⟩ : SearchHistoryItem)
        :: prev.filter (fun item => item.id ≠ id)).take MAX_HISTORY
      = ⟨id, title, now⟩ :: (prev.filter (fun item => item.id ≠ id)).take 19 := by
    rw [show MAX_HISTORY = 19 + 1 from rfl, List.take_succ_cons]
  refine ⟨?_, ?_, ?_, ?_, ?_⟩
  · rw [addToHistory_unfold, htake]
    rfl
  · rw [addToHistory_unfold, htake]
    have hzero : (prev.filter (fun item => item.id ≠ id)).countP (fun i => i.id == id) = 0 := by
      rw [List.countP_eq_zero]
      intro a ha
      have h2 := (List.mem_filter.mp ha).2
      simp only [ne_eq, decide_not, Bool.not_eq_true', decide_eq_false_iff_not] at h2
      simp [h2]
    have hsub : ((prev.filter (fun item => item.id ≠ id)).take 19).Sublist
        (prev.filter (fun item => item.id ≠ id)) := List.take_sublist _ _
    have hz : ((prev.filter (fun item => item.id ≠ id)).take 19).countP
        (fun i => i.id == id) = 0 :=
      Nat.le_zero.mp (hzero ▸ hsub.countP_le _)
    rw [List.countP_cons, hz]
    simp
  · rw [addToHistory_unfold]
    exact List.length_take_le _ _
  · intro x hx
    rw [addToHistory_unfold] at hx
    rcases List.mem_cons.mp (List.mem_of_mem_take hx) with h | h
    · exact Or.inl h
    · right
      have hm := List.mem_filter.mp h
      refine ⟨hm.1, ?_⟩
      simpa using hm.2
  · intro h20 hfresh
    have hfil : prev.filter (fun item => item.id ≠ id) = prev := by
      rw [List.filter_eq_self]
      intro a ha
      simpa using hfresh a ha
    rw [addToHistory_unfold, hfil, show MAX_HISTORY = 19 + 1 from rfl, List.take_succ_cons]

/-- A full history of 20 entries whose identifiers all differ from "x". -/
def c1FullHistory : List SearchHistoryItem :=
  (List.range MAX_HISTORY).map (fun i => ⟨toString i, "Title", i⟩)

theorem history_record_spec_witness :
    (addToHistory "x" "New" 99 c1FullHistory).head? = some ⟨"x", "New", 99⟩
    ∧ addToHistory "x" "New" 99 c1FullHistory
        = ⟨"x", "New", 99⟩ :: c1FullHistory.take (MAX_HISTORY - 1) := by
  have h := history_record_spec c1FullHistory "x" "New" 99
  exact ⟨h.1, h.2.2.2.2 (by decide) (by decide)⟩

/-- C2 (amended): after any 51 `trackSearch` calls starting from the
initial analytics state, the rolling window holds exactly the last 50
samples in order, `totalSearches` counts all 51 calls, and the reported
`avgResponseTime` is the arithmetic mean of the 50 retained samples
rounded half-up to the nearest integer (JS `Math.round`), rather than
the exact mean. -/
theorem analytics_51_samples (samples : List (String × Nat)) (h : samples.length = 51) :
    (trackMany samples initialAnalytics).searchTimes = (samples.map Prod.snd).drop 1
    ∧ (trackMany samples initialAnalytics).totalSearches = 51
    ∧ ((trackMany samples initialAnalytics).avgResponseTime : ℤ)
        = ⌊((trackMany samples initialAnalytics).searchTimes.sum : ℚ)
            / ((trackMany samples initialAnalytics).searchTimes.length : ℚ) + 1 / 2⌋ := by
  have hst : (trackMany samples initialAnalytics).searchTimes
      = jsSliceLast 50 (samples.map Prod.snd) := by
    have h0 := trackMany_searchTimes samples initialAnalytics (by simp [initialAnalytics])
    simpa [initialAnalytics] using h0
  have hdrop : jsSliceLast 50 (samples.map Prod.snd) = (samples.map Prod.snd).drop 1 := by
    simp [jsSliceLast, List.length_map, h]
  have hlen : (trackMany samples initialAnalytics).searchTimes.length = 50 := by
    rw [hst, hdrop]
    simp [List.length_drop, List.length_map, h]
  refine ⟨hst.trans hdrop, ?_, ?_⟩
  · rw [trackMany_totalSearches]
    simp [initialAnalytics, h]
  · have hne : samples ≠ [] := by
      intro he
      rw [he] at h
      simp at h
    rw [trackMany_avgResponseTime samples initialAnalytics hne,
      jsRoundDiv_eq_floor _ _ (by rw [hlen]; norm_num)]

theorem analytics_51_samples_witness :
    (trackMany (List.replicate 51 ("a", 2)) initialAnalytics).searchTimes
        = ((List.replicate 51 (("a", 2) : String × Nat)).map Prod.snd).drop 1
    ∧ (trackMany (List.replicate 51 ("a", 2)) initialAnalytics).totalSearches = 51
    ∧ ((trackMany (List.replicate 51 ("a", 2)) initialAnalytics).avgResponseTime : ℤ)
        = ⌊((trackMany (List.replicate 51 ("a", 2)) initialAnalytics).searchTimes.sum : ℚ)
            / ((trackMany (List.replicate 51 ("a", 2)) initialAnalytics).searchTimes.length : ℚ)
            + 1 / 2⌋ :=
  analytics_51_samples (List.replicate 51 ("a", 2)) (by decide)

/-- Samples (51 of them) whose retained window has the non-integer mean 1/50. -/
def staleAvgSamples : List (String × Nat) :=
  List.replicate 50 ("a", 0) ++ [("b", 1)]

set_option maxRecDepth 100000 in
/-- C2 counterexample: after these 51 calls the retained window sums to 1
over 50 samples, so its arithmetic mean is 1/50, but the reported
`avgResponseTime` is the rounded value 0 — not the mean. -/
theorem analytics_avg_not_exact_mean :
    (trackMany staleAvgSamples initialAnalytics).avgResponseTime = 0
    ∧ (trackMany staleAvgSamples initialAnalytics).searchTimes.sum = 1
    ∧ (trackMany staleAvgSamples initialAnalytics).searchTimes.length = 50
    ∧ ¬(((trackMany staleAvgSamples initialAnalytics).avgResponseTime : ℚ)
        = ((trackMany staleAvgSamples initialAnalytics).searchTimes.sum : ℚ)
          / ((trackMany staleAvgSamples initialAnalytics).searchTimes.length : ℚ)) := by
  have h1 : (trackMany staleAvgSamples initialAnalytics).avgResponseTime = 0 := by decide
  have h2 : (trackMany staleAvgSamples initialAnalytics).searchTimes.sum = 1 := by decide
  have h3 : (trackMany staleAvgSamples initialAnalytics).searchTimes.length = 50 := by decide
  refine ⟨h1, h2, h3, ?_⟩
  rw [h1, h2, h3]
  norm_num

-- ==================== Batch path machinery ====================

/-- Did this fetch outcome deliver a body that `response.json()` parsed? -/
def bodyParses : Fetched → Bool
  | .netError _ => false
  | .resp r =>
    match r.body with
    | .ok _ => true
    | .error _ => false

/-- The entity a batch iteration collects from a fetch outcome: the first
element of `data.unifiedEntities` of a parsed body, if any. -/
def headEntity : Fetched → Option NetflixEntity
  | .netError _ => none
  | .resp r =>
    match r.body with
    | .error _ => none
    | .ok res =>
      match res.dataEntities with
      | some (entity :: _) => some entity
      | _ => none

theorem batchLoop_all_parse (server : String → Fetched) :
    ∀ (ids : List String) (acc : List NetflixEntity),
      (∀ id ∈ ids, bodyParses (server id) = true) →
      batchLoop server ids acc
        = (ids, .ok (acc ++ ids.filterMap (fun id => headEntity (server id)))) := by
  intro ids
  induction ids with
  | nil =>
    intro acc _
    simp [batchLoop]
  | cons id rest ih =>
    intro acc hall
    have hid : bodyParses (server id) = true := hall id (by simp)
    cases hs : server id with
    | netError msg => rw [hs] at hid; simp [bodyParses] at hid
    | resp r =>
      cases hb : r.body with
      | error msg => rw [hs] at hid; simp [bodyParses, hb] at hid
      | ok res =>
        have hrest : ∀ i ∈ rest, bodyParses (server i) = true := by
          intro i hi
          exact hall i (by simp [hi])
        cases hd : res.dataEntities with
        | none =>
          simp [batchLoop, hs, hb, hd, ih acc hrest, headEntity]
        | some ents =>
          cases ents with
          | nil =>
            simp [batchLoop, hs, hb, hd, ih acc hrest, headEntity]
          | cons e es =>
            simp [batchLoop, hs, hb, hd, ih (acc ++ [e]) hrest, headEntity]

theorem batchLoop_trace (server : String → Fetched) :
    ∀ (ids : List String) (acc : List NetflixEntity),
      ∃ rest, ids = (batchLoop server ids acc).1 ++ rest := by
  intro ids
  induction ids with
  | nil =>
    intro acc
    exact ⟨[], rfl⟩
  | cons id tl ih =>
    intro acc
    cases hs : server id with
    | netError msg => exact ⟨tl, by simp [batchLoop, hs]⟩
    | resp r =>
      cases hb : r.body with
      | error msg => exact ⟨tl, by simp [batchLoop, hs, hb]⟩
      | ok res =>
        obtain ⟨t, ht⟩ := ih (match res.dataEntities with
          | some (entity :: _) => acc ++ [entity]
          | _ => acc)
        refine ⟨t, ?_⟩
        simp only [batchLoop, hs, hb]
        rw [List.cons_append, ← ht]

theorem handleBatchSearch_requested (server : String → Fetched) (ids : List String)
    (elapsed : Nat) (st : AppState) :
    (handleBatchSearch server ids elapsed st).requested
      = (batchLoop server (ids.take 4) []).1 := by
  unfold handleBatchSearch
  rcases h2 : (batchLoop server (ids.take 4) []).2 with msg | ents
  · simp [h2]
  · rcases he : ents.isEmpty <;> simp [h2, he]

/-- The client state at page load (src/App.tsx lines 1030-1046): empty
history, zeroed analytics, rate limit 100/100. -/
def initialAppState : AppState :=
  { history := [], analytics := initialAnalytics, rateLimit := (100, 100) }

/-- An entity used by concrete test servers. -/
def entB : NetflixEntity := { videoId := 2, title := "Beta", runtimeSec := 100 }

/-- Server where identifier "A" answers with an unparseable body and
every other identifier returns one entity. -/
def c3AbortServer : String → Fetched := fun id =>
  if id = "A" then .resp { ok := true, rateHeaders := none, body := .error "SyntaxError" }
  else .resp { ok := true, rateHeaders := none, body := .ok { dataEntities := some [entB], error := none } }

/-- C3 counterexample: with identifier "A" returning an unparseable body
and "B" returning an entity, the batch is aborted at "A" — "B" is never
requested, nothing is collected, and the surfaced error is the parse
exception, not the aggregate none-found message.  The unparseable-body
failure is therefore not silently skipped. -/
theorem batch_parse_error_aborts :
    (handleBatchSearch c3AbortServer ["A", "B"] 10 initialAppState).errorMsg
        = some "SyntaxError"
    ∧ (handleBatchSearch c3AbortServer ["A", "B"] 10 initialAppState).requested = ["A"]
    ∧ (handleBatchSearch c3AbortServer ["A", "B"] 10 initialAppState).comparison = [] := by
  refine ⟨?_, ?_, ?_⟩ <;> rfl

/-- C3 (amended): when every requested body parses, per-identifier
failures (non-success HTTP status, missing or empty entity list) are
silently skipped without aborting the remaining identifiers — all of
`ids.take 4` is requested — and the batch fails, with the single
aggregate none-found error, iff zero entities were collected; a network
error or unparseable body instead aborts the whole batch. -/
theorem batch_skip_and_aggregate (server : String → Fetched) (ids : List String)
    (elapsed : Nat) (st : AppState)
    (h : ∀ id ∈ ids.take 4, bodyParses (server id) = true) :
    ((handleBatchSearch server ids elapsed st).errorMsg
        = if ((ids.take 4).filterMap (fun id => headEntity (server id))).isEmpty
          then some "No content found for any of the provided IDs" else none)
    ∧ (handleBatchSearch server ids elapsed st).comparison
        = (ids.take 4).filterMap (fun id => headEntity (server id))
    ∧ (handleBatchSearch server ids elapsed st).requested = ids.take 4 := by
  have hloop := batchLoop_all_parse server (ids.take 4) [] h
  unfold handleBatchSearch
  rw [hloop]
  rcases he : ((ids.take 4).filterMap (fun id => headEntity (server id))).isEmpty
  · simp [he]
  · have hnil : (ids.take 4).filterMap (fun id => headEntity (server id)) = [] :=
      List.isEmpty_iff.mp he
    simp [he, hnil]

/-- Server where "A" returns a non-success status with an empty entity
list and every other identifier returns one entity. -/
def c3SkipServer : String → Fetched := fun id =>
  if id = "A" then
    .resp { ok := false, rateHeaders := none
            body := .ok { dataEntities := some [], error := some "Server error" } }
  else .resp { ok := true, rateHeaders := none, body := .ok { dataEntities := some [entB], error := none } }

theorem batch_skip_and_aggregate_witness :
    ((handleBatchSearch c3SkipServer ["A", "B"] 10 initialAppState).errorMsg
        = if ((["A", "B"].take 4).filterMap (fun id => headEntity (c3SkipServer id))).isEmpty
          then some "No content found for any of the provided IDs" else none)
    ∧ (handleBatchSearch c3SkipServer ["A", "B"] 10 initialAppState).comparison
        = (["A", "B"].take 4).filterMap (fun id => headEntity (c3SkipServer id))
    ∧ (handleBatchSearch c3SkipServer ["A", "B"] 10 initialAppState).requested
        = ["A", "B"].take 4 :=
  batch_skip_and_aggregate c3SkipServer ["A", "B"] 10 initialAppState (by decide)

/-- Server answering every identifier with one entity. -/
def allOkServer : String → Fetched := fun _ =>
  .resp { ok := true, rateHeaders := none, body := .ok { dataEntities := some [entB], error := none } }

/-- C6: a batch search requests at most the first 4 identifiers in input
order — the requested trace is a prefix of `ids.take 4`, hence never
more than 4 and never anything beyond the fourth — it is all of
`ids.take 4` whenever every requested body parses, and on the concrete
input A,B,C,D,E with a fully answering server exactly A,B,C,D are
requested. -/
theorem batch_truncates_to_four (server : String → Fetched) (ids : List String)
    (elapsed : Nat) (st : AppState) :
    (∃ rest, ids.take 4 = (handleBatchSearch server ids elapsed st).requested ++ rest)
    ∧ (handleBatchSearch server ids elapsed st).requested.length ≤ 4
    ∧ ((∀ id ∈ ids.take 4, bodyParses (server id) = true) →
        (handleBatchSearch server ids elapsed st).requested = ids.take 4)
    ∧ (handleBatchSearch allOkServer ["A", "B", "C", "D", "E"] elapsed st).requested
        = ["A", "B", "C", "D"] := by
  obtain ⟨rest, hrest⟩ := batchLoop_trace server (ids.take 4) []
  refine ⟨⟨rest, by rw [handleBatchSearch_requested]; exact hrest⟩, ?_, ?_, ?_⟩
  · have hlen : (handleBatchSearch server ids elapsed st).requested.length + rest.length
        = (ids.take 4).length := by
      rw [handleBatchSearch_requested, ← List.length_append, ← hrest]
    have h4 : (ids.take 4).length ≤ 4 := List.length_take_le _ _
    omega
  · intro hall
    exact (batch_skip_and_aggregate server ids elapsed st hall).2.2
  · rw [handleBatchSearch_requested]
    rfl

theorem batch_truncates_to_four_witness :
    (∃ rest, (["A", "B", "C", "D", "E"].take 4)
        = (handleBatchSearch allOkServer ["A", "B", "C", "D", "E"] 10 initialAppState).requested
          ++ rest)
    ∧ (handleBatchSearch allOkServer ["A", "B", "C", "D", "E"] 10 initialAppState).requested
        = ["A", "B", "C", "D"] :=
  ⟨(batch_truncates_to_four allOkServer ["A", "B", "C", "D", "E"] 10 initialAppState).1,
    (batch_truncates_to_four allOkServer ["A", "B", "C", "D", "E"] 10
      initialAppState).2.2.1 (by decide)⟩

/-- C10: a successful batch search (no error message) updates analytics
exactly once: the new analytics is a single `trackSearch` of the
comma-joined original identifier list (not the truncated one) with the
single combined elapsed time, so `totalSearches` grows by exactly 1 and
the newest recent-search entry is that joined identifier with that
time. -/
theorem batch_tracks_once (server : String → Fetched) (ids : List String)
    (elapsed : Nat) (st : AppState)
    (h : (handleBatchSearch server ids elapsed st).errorMsg = none) :
    (handleBatchSearch server ids elapsed st).state.analytics
        = trackSearch (String.intercalate "," ids) elapsed st.analytics
    ∧ (handleBatchSearch server ids elapsed st).state.analytics.totalSearches
        = st.analytics.totalSearches + 1
    ∧ (handleBatchSearch server ids elapsed st).state.analytics.recentSearches.head?
        = some (String.intercalate "," ids, elapsed) := by
  have hmain : (handleBatchSearch server ids elapsed st).state.analytics
      = trackSearch (String.intercalate "," ids) elapsed st.analytics := by
    unfold handleBatchSearch at h ⊢
    rcases h2 : (batchLoop server (ids.take 4) []).2 with msg | ents
    · simp [h2] at h
    · rcases he : ents.isEmpty
      · simp [h2, he]
      · simp [h2, he] at h
  refine ⟨hmain, ?_, ?_⟩
  · rw [hmain]
    rfl
  · rw [hmain]
    rfl

theorem batch_tracks_once_witness :
    (handleBatchSearch allOkServer ["A", "B", "C", "D", "E"] 37 initialAppState).state.analytics
        = trackSearch (String.intercalate "," ["A", "B", "C", "D", "E"]) 37
            initialAppState.analytics
    ∧ (handleBatchSearch allOkServer ["A", "B", "C", "D", "E"] 37
          initialAppState).state.analytics.totalSearches
        = initialAppState.analytics.totalSearches + 1
    ∧ (handleBatchSearch allOkServer ["A", "B", "C", "D", "E"] 37
          initialAppState).state.analytics.recentSearches.head?
        = some (String.intercalate "," ["A", "B", "C", "D", "E"], 37) :=
  batch_tracks_once allOkServer ["A", "B", "C", "D", "E"] 37 initialAppState (by decide)

/-- C5 (amended): the rate-limit pair is overwritten wholesale by the
single-identifier path whenever the completed response carries both
rate-limit headers and kept unchanged otherwise (also on a rejected
fetch); the batch path never touches it, headers or not. -/
theorem rateLimit_overwrite_spec (server : String → Fetched) (videoId : String)
    (elapsed now : Nat) (st : AppState) (ids : List String) :
    (∀ msg, server videoId = .netError msg →
        (handleSearch server videoId elapsed now st).state.rateLimit = st.rateLimit)
    ∧ (∀ r, server videoId = .resp r →
        (handleSearch server videoId elapsed now st).state.rateLimit
          = r.rateHeaders.getD st.rateLimit)
    ∧ (handleBatchSearch server ids elapsed st).state.rateLimit = st.rateLimit := by
  refine ⟨?_, ?_, ?_⟩
  · intro msg hs
    simp [handleSearch, hs]
  · intro r hs
    rcases hb : r.body with msg | res
    · simp [handleSearch, hs, hb]
    · rcases ho : r.ok
      · simp [handleSearch, hs, hb, ho]
      · rcases hd : res.dataEntities with _ | ents
        · simp [handleSearch, hs, hb, ho, hd]
        · rcases ents with _ | ⟨e, es⟩
          · simp [handleSearch, hs, hb, ho, hd]
          · simp [handleSearch, hs, hb, ho, hd]
  · unfold handleBatchSearch
    rcases h2 : (batchLoop server (ids.take 4) []).2 with msg | ents
    · simp [h2]
    · rcases he : ents.isEmpty <;> simp [h2, he]

/-- A response carrying rate-limit headers 5/100 and one entity. -/
def c5HeaderResp : HttpResponse :=
  { ok := true, rateHeaders := some (5, 100)
    body := .ok { dataEntities := some [entB], error := none } }

/-- Server whose every response is `c5HeaderResp`. -/
def c5HeaderServer : String → Fetched := fun _ => .resp c5HeaderResp

theorem rateLimit_overwrite_spec_witness :
    (handleSearch c5HeaderServer "81" 10 0 initialAppState).state.rateLimit = (5, 100)
    ∧ (handleBatchSearch c5HeaderServer ["81"] 10 initialAppState).state.rateLimit
        = initialAppState.rateLimit := by
  have h := rateLimit_overwrite_spec c5HeaderServer "81" 10 0 initialAppState ["81"]
  refine ⟨?_, h.2.2⟩
  have h2 := h.2.1 c5HeaderResp rfl
  simpa [c5HeaderResp] using h2

/-- C5 counterexample: a batch response carrying rate-limit headers 5/100
leaves the rate-limit state at its previous 100/100 — the batch path
does not overwrite it, contradicting the claim that header-bearing
responses overwrite the state on both paths. -/
theorem batch_rate_headers_ignored :
    (handleBatchSearch c5HeaderServer ["81"] 10 initialAppState).state.rateLimit = (100, 100)
    ∧ (handleBatchSearch c5HeaderServer ["81"] 10 initialAppState).state.rateLimit
        ≠ (5, 100) := by
  refine ⟨rfl, by decide⟩

theorem urlSetParam_lookup (ps : List (String × String)) (k v : String) :
    (urlSetParam ps k v).lookup k = some v := by
  induction ps with
  | nil => simp [urlSetParam, List.lookup]
  | cons p rest ih =>
    obtain ⟨a, b⟩ := p
    by_cases h : a = k
    · simp [urlSetParam, h, List.lookup]
    · have hka : (k == a) = false := beq_eq_false_iff_ne.mpr (Ne.symm h)
      simp only [urlSetParam, h, if_false]
      simp [List.lookup, hka, ih]

theorem urlDeleteParam_lookup (ps : List (String × String)) (k : String) :
    (urlDeleteParam ps k).lookup k = none := by
  induction ps with
  | nil => simp [urlDeleteParam, List.lookup]
  | cons p rest ih =>
    obtain ⟨a, b⟩ := p
    by_cases h : a = k
    · simpa [urlDeleteParam, List.filter_cons, h] using ih
    · have hka : (k == a) = false := beq_eq_false_iff_ne.mpr (Ne.symm h)
      have hpred : (decide ((a, b).1 ≠ k)) = true := by simp [h]
      rw [urlDeleteParam, List.filter_cons, if_pos hpred]
      rw [urlDeleteParam] at ih
      have hstep : List.lookup k ((a, b) :: List.filter (fun q => decide (q.1 ≠ k)) rest)
          = List.lookup k (List.filter (fun q => decide (q.1 ≠ k)) rest) := by
        simp [List.lookup, hka]
      rw [hstep]
      exact ih

/-- C4 (amended): `setVideoIdToURL` sets the `v` query parameter (or
removes it when the identifier is empty) but publishes the new URL with
push semantics: the history stack gains one entry per call, so duplicate
history entries do accumulate per search. -/
theorem url_write_pushes (videoId : String) (url : List (String × String))
    (histStack : List (List (String × String))) :
    (setVideoIdToURL videoId url histStack).2
        = (setVideoIdToURL videoId url histStack).1 :: histStack
    ∧ (setVideoIdToURL videoId url histStack).2.length = histStack.length + 1
    ∧ (videoId ≠ "" →
        (setVideoIdToURL videoId url histStack).1.lookup "v" = some videoId)
    ∧ (videoId = "" →
        (setVideoIdToURL videoId url histStack).1.lookup "v" = none) := by
  refine ⟨rfl, by simp [setVideoIdToURL], ?_, ?_⟩
  · intro h
    simp [setVideoIdToURL, h, urlSetParam_lookup]
  · intro h
    simp [setVideoIdToURL, h, urlDeleteParam_lookup]

theorem url_write_pushes_witness :
    (setVideoIdToURL "81" [("v", "7")] [[("v", "7")]]).1.lookup "v" = some "81"
    ∧ (setVideoIdToURL "81" [("v", "7")] [[("v", "7")]]).2.length = 2 := by
  have h := url_write_pushes "81" [("v", "7")] [[("v", "7")]]
  exact ⟨h.2.2.1 (by decide), by simpa using h.2.1⟩

/-- C4 counterexample: writing identifier "81" over a one-entry history
stack yields a two-entry stack — a new history entry is added (push, not
replace semantics). -/
theorem url_write_adds_history_entry :
    (setVideoIdToURL "81" [] [[]]).2.length = 2
    ∧ (setVideoIdToURL "81" [] [[]]).2.length ≠ 1 := by
  exact ⟨rfl, by decide⟩

/-- C7: the storage read returns the caller's default when the key is
absent, when `localStorage.getItem` itself throws, or when the stored
text fails to deserialize, and returns the parsed value otherwise — it
is a total function, never raising; the storage write leaves the store
untouched when the underlying `setItem` fails, and records the binding
when it succeeds. -/
theorem storage_tolerates_failures {α : Type} (parse : String → Except Unit α) (d : α)
    (item : String) (store : List (String × String)) (key value : String) :
    getFromStorage (Except.error ()) parse d = d
    ∧ getFromStorage (Except.ok none) parse d = d
    ∧ (parse item = Except.error () → getFromStorage (Except.ok (some item)) parse d = d)
    ∧ (∀ v, item ≠ "" → parse item = Except.ok v →
        getFromStorage (Except.ok (some item)) parse d = v)
    ∧ setToStorage store key value false = store
    ∧ (setToStorage store key value true).lookup key = some value := by
  refine ⟨rfl, rfl, ?_, ?_, rfl, ?_⟩
  · intro hp
    by_cases hi : item = ""
    · simp [getFromStorage, hi]
    · simp [getFromStorage, hi, hp]
  · intro v hi hp
    simp [getFromStorage, hi, hp]
  · simp [setToStorage, List.lookup]

/-- A toy deserializer accepting exactly the text "7". -/
def c7parse : String → Except Unit Nat := fun s => if s = "7" then .ok 7 else .error ()

theorem storage_tolerates_failures_witness :
    getFromStorage (Except.ok (some "7")) c7parse 0 = 7
    ∧ getFromStorage (Except.ok (some "nope")) c7parse 0 = 0
    ∧ setToStorage [("k", "old")] "k" "new" false = [("k", "old")] := by
  have h := storage_tolerates_failures c7parse 0 "7" [("k", "old")] "k" "new"
  have h2 := storage_tolerates_failures c7parse 0 "nope" [("k", "old")] "k" "new"
  exact ⟨h.2.2.2.1 7 (by decide) (by decide), h2.2.2.1 (by decide), h.2.2.2.2.1⟩

/-- C8: the Markdown export's runtime field renders whole hours and whole
leftover minutes as "Hh Mm" when the duration reaches one hour and as
"Mm" otherwise: in general `formatRuntime` emits hours and leftover
minutes for at least 3600 seconds and plain minutes below, and
concretely 5400 seconds render as "1h 30m" and 125 seconds as "2m" in
the export line. -/
theorem markdown_runtime_spec (seconds : Nat) :
    exportRuntimeLine { videoId := 1, title := "T", runtimeSec := 5400 }
        = "- **Runtime:** 1h 30m"
    ∧ exportRuntimeLine { videoId := 1, title := "T", runtimeSec := 125 }
        = "- **Runtime:** 2m"
    ∧ (3600 ≤ seconds → formatRuntime seconds
        = toString (seconds / 3600) ++ "h " ++ toString (seconds % 3600 / 60) ++ "m")
    ∧ (seconds < 3600 → formatRuntime seconds = toString (seconds / 60) ++ "m")
    ∧ formatRuntime 5400 = "1h 30m"
    ∧ formatRuntime 125 = "2m" := by
  refine ⟨rfl, rfl, ?_, ?_, rfl, rfl⟩
  · intro h
    have hpos : 0 < seconds / 3600 := Nat.div_pos h (by norm_num)
    simp [formatRuntime, hpos]
  · intro h
    have hz : seconds / 3600 = 0 := Nat.div_eq_of_lt h
    simp [formatRuntime, hz, Nat.mod_eq_of_lt h]

theorem markdown_runtime_spec_witness :
    formatRuntime 5400
        = toString (5400 / 3600) ++ "h " ++ toString (5400 % 3600 / 60) ++ "m"
    ∧ formatRuntime 125 = toString (125 / 60) ++ "m" :=
  ⟨(markdown_runtime_spec 5400).2.2.1 (by decide),
    (markdown_runtime_spec 125).2.2.2.1 (by decide)⟩

theorem startsWithChars_iff (p : List Char) : ∀ (h : List Char),
    startsWithChars p h = true ↔ ∃ t, h = p ++ t := by
  induction p with
  | nil =>
    intro h
    simp [startsWithChars]
  | cons c cs ih =>
    intro h
    cases h with
    | nil => simp [startsWithChars]
    | cons d ds =>
      rw [startsWithChars]
      simp only [Bool.and_eq_true, beq_iff_eq]
      rw [ih ds]
      constructor
      · rintro ⟨hcd, t, rfl⟩
        subst hcd
        exact ⟨t, rfl⟩
      · rintro ⟨t, ht⟩
        injection ht with h1 h2
        exact ⟨h1.symm, t, h2⟩

theorem includesChars_iff (pat : List Char) : ∀ (hay : List Char),
    includesChars hay pat = true ↔ ∃ pre post, hay = pre ++ pat ++ post := by
  intro hay
  induction hay with
  | nil =>
    rw [includesChars]
    cases pat with
    | nil => simp
    | cons c cs => simp [List.isEmpty]
  | cons c t ih =>
    rw [includesChars]
    simp only [Bool.or_eq_true]
    rw [startsWithChars_iff pat (c :: t), ih]
    constructor
    · rintro (⟨r, hr⟩ | ⟨pre, post, hp⟩)
      · exact ⟨[], r, by simpa using hr⟩
      · exact ⟨c :: pre, post, by simp [hp]⟩
    · rintro ⟨pre, post, hp⟩
      cases pre with
      | nil => exact Or.inl ⟨post, by simpa using hp⟩
      | cons x xs =>
        injection hp with h1 h2
        exact Or.inr ⟨xs, post, h2⟩

/-- C9: the autocomplete filter is a pure selection over the in-memory
history — its result is a sublist of the input, so it has no side effect
on any stored state — and an entry is kept exactly when the raw query is
a contiguous substring of its identifier (case-sensitive) or the
lower-cased query is a contiguous substring of its lower-cased title
(case-insensitive). -/
theorem autocomplete_filter_spec (history : List SearchHistoryItem) (videoId : String)
    (x : SearchHistoryItem) :
    (filteredHistory history videoId).Sublist history
    ∧ (x ∈ filteredHistory history videoId ↔
        x ∈ history ∧
          ((∃ pre post, x.id.toList = pre ++ videoId.toList ++ post)
            ∨ ∃ pre post,
                x.title.toLower.toList = pre ++ videoId.toLower.toList ++ post)) := by
  refine ⟨List.filter_sublist _, ?_⟩
  rw [filteredHistory, List.mem_filter, Bool.or_eq_true, jsIncludes, jsIncludes,
    includesChars_iff, includesChars_iff]

theorem autocomplete_filter_spec_witness :
    (filteredHistory [⟨"81", "Dark", 1⟩] "8").Sublist [⟨"81", "Dark", 1⟩]
    ∧ (⟨"81", "Dark", 1⟩ : SearchHistoryItem) ∈ filteredHistory [⟨"81", "Dark", 1⟩] "8" := by
  have h := autocomplete_filter_spec [⟨"81", "Dark", 1⟩] "8" ⟨"81", "Dark", 1⟩
  exact ⟨h.1, h.2.mpr ⟨by simp, Or.inl ⟨[], ['1'], by decide⟩⟩⟩
